import Mathlib

/-!
# Verification of the ai-chess turn-orchestration core

Shallow embedding of the move-resolution, turn-loop and evaluation logic of
the `ai-chess` repository (`src/game/game-loop.ts`, `src/game/game-engine.ts`,
`src/game/game-persistence.ts`), together with proofs of the spec's claims.

Strings are modelled as `List Char`; the external rules engine (chess.js) is
modelled from the spec's Rules Engine Adapter contract as an abstract
transition system, with the contract stated as an explicit hypothesis
(`Engine.Lawful`) of the theorems that need it.
-/

namespace AIChess

/-- A SAN move string, modelled as a list of characters. -/
abbrev San := List Char

/-- Player colors, as used by `getTurn` in `game-engine.ts`. -/
inductive Color where
  | white
  | black
deriving DecidableEq, Repr

/-- The opposite color. -/
def Color.flip : Color → Color
  | .white => .black
  | .black => .white

/-! ## The move-extraction regex of `game-loop.ts`

`extractMoveFromResponse` matches the JavaScript regex
`\b([NBRQK]?[a-h]?[1-8]?x?[a-h][1-8](?:=[NBRQ])?[+#]?|O-O(?:-O)?)\b` with the
global flag and returns the last match.  We embed a small backtracking regex
engine whose priority order coincides with the JavaScript one (alternation is
left-biased, `?` is greedy), specialized to the constructs this pattern uses:
character classes, sequencing, alternation, greedy option and the
word-boundary assertion. -/

/-- Regular-expression abstract syntax: exactly the constructs used by the
move pattern in `extractMoveFromResponse`. -/
inductive RE where
  | cls (cs : List Char)
  | seq (a b : RE)
  | alt (a b : RE)
  | opt (a : RE)
  | wb
deriving Repr

/-- JavaScript word characters (the `\w` class used by the `\b` assertion). -/
def isWordChar (c : Char) : Bool :=
  ('a' ≤ c && c ≤ 'z') || ('A' ≤ c && c ≤ 'Z') || ('0' ≤ c && c ≤ '9') || c = '_'

/-- Whether the optional character at a position is a word character
(string edges count as non-word). -/
def isWordCharOpt : Option Char → Bool
  | some c => isWordChar c
  | none => false

/-- The JavaScript `\b` word-boundary assertion at position `i` of `s`. -/
def wordBoundary (s : List Char) (i : Nat) : Bool :=
  isWordCharOpt (if i = 0 then none else s.get? (i - 1)) != isWordCharOpt (s.get? i)

/-- All end positions of a match of `re` in `s` starting at `i`, in the order
a backtracking matcher (JavaScript semantics) would try them: the head is the
end position the JavaScript engine commits to. -/
def matchEnds : RE → List Char → Nat → List Nat
  | .cls cs, s, i =>
      match s.get? i with
      | some c => if c ∈ cs then [i + 1] else []
      | none => []
  | .seq a b, s, i => (matchEnds a s i).flatMap (fun j => matchEnds b s j)
  | .alt a b, s, i => matchEnds a s i ++ matchEnds b s i
  | .opt a, s, i => matchEnds a s i ++ [i]
  | .wb, s, i => if wordBoundary s i then [i] else []

/-- The SAN-shaped alternative
`[NBRQK]?[a-h]?[1-8]?x?[a-h][1-8](?:=[NBRQ])?[+#]?` of the move pattern. -/
def sanAlt : RE :=
  .seq (.opt (.cls ['N', 'B', 'R', 'Q', 'K']))
    (.seq (.opt (.cls ['a', 'b', 'c', 'd', 'e', 'f', 'g', 'h']))
      (.seq (.opt (.cls ['1', '2', '3', '4', '5', '6', '7', '8']))
        (.seq (.opt (.cls ['x']))
          (.seq (.cls ['a', 'b', 'c', 'd', 'e', 'f', 'g', 'h'])
            (.seq (.cls ['1', '2', '3', '4', '5', '6', '7', '8'])
              (.seq (.opt (.seq (.cls ['=']) (.cls ['N', 'B', 'R', 'Q'])))
                (.opt (.cls ['+', '#']))))))))

/-- The castling alternative `O-O(?:-O)?` of the move pattern. -/
def castleAlt : RE :=
  .seq (.cls ['O'])
    (.seq (.cls ['-'])
      (.seq (.cls ['O'])
        (.opt (.seq (.cls ['-']) (.cls ['O'])))))

/-- The full move pattern
`\b([NBRQK]?[a-h]?[1-8]?x?[a-h][1-8](?:=[NBRQ])?[+#]?|O-O(?:-O)?)\b` of
`extractMoveFromResponse` in `game-loop.ts`. -/
def movePattern : RE :=
  .seq .wb (.seq (.alt sanAlt castleAlt) .wb)

/-- Scan for the first match of `movePattern` at or after position `pos`,
with structural fuel (one unit per candidate start position). -/
def findFromAux (s : List Char) : Nat → Nat → Option (Nat × Nat)
  | _, 0 => none
  | pos, fuel + 1 =>
      match (matchEnds movePattern s pos).head? with
      | some j => some (pos, j)
      | none => findFromAux s (pos + 1) fuel

/-- The first match of `movePattern` at or after position `pos`:
the smallest start `i ≥ pos` admitting a match, paired with the end position
the backtracking engine commits to there (candidate starts run up to and
including `s.length`). -/
def findFrom (s : List Char) (pos : Nat) : Option (Nat × Nat) :=
  findFromAux s pos (s.length + 1 - pos)

/-- All matches of the global regex scan, from position `pos`, with fuel
(the JavaScript scan advances `lastIndex` past every match, by at least one
position). Returns the matched substrings in order of occurrence. -/
def allMatchesAux (s : List Char) : Nat → Nat → List (List Char)
  | _, 0 => []
  | pos, fuel + 1 =>
      match findFrom s pos with
      | none => []
      | some (i, j) => ((s.drop i).take (j - i)) :: allMatchesAux s (max j (i + 1)) fuel

/-- Embeds `response.match(movePattern)` with the global flag: every match of the
move pattern in `s`, in order of occurrence. -/
def matchAll (s : List Char) : List (List Char) :=
  allMatchesAux s 0 (s.length + 1)

/-- Function `extractMoveFromResponse` from `game-loop.ts`: all matches of the move
pattern, returning the last one, or `none` when there is no match. -/
def extractMoveFromResponse (response : List Char) : Option San :=
  let ms := matchAll response
  if ms.length > 0 then
    ms.get? (ms.length - 1)
  else
    none

/-! ## The rules engine (chess.js) as an abstract transition system

Modelled from the spec: chess rule legality is out of scope and provided by an
external Rules Engine Adapter with interface `legalMoves()`, `applyMove(san)`,
`isTerminal()`, `sideToMove()`.  We model it as a structure of functions on an
abstract state type; the spec's contract for it (an applied move must be a
member of the legal-move set and flips the side to move, a rejected move
leaves the state untouched) is the `Engine.Lawful` predicate, assumed as a
hypothesis where a claim needs it. -/

/-- Modelled from the spec: the Rules Engine Adapter (the chess.js instance
wrapped by `GameEngine`).  `move` returns `none` when chess.js `move()`
throws on an illegal/unparseable move (the state is then unchanged, which the
embedding makes definitional by keeping the old state), and `some` of the new
state plus the captured piece otherwise.  `turn` is chess.js `turn()`
(`'w'`/`'b'`). -/
structure Engine (σ : Type) where
  legalMoves : σ → List San
  move : σ → San → Option (σ × Option Char)
  turn : σ → Char
  isGameOver : σ → Bool
  isCheckmate : σ → Bool

/-- Modelled from the spec: the contract of the Rules Engine Adapter.
A move is accepted exactly when it is a member of the legal-move set, the
side to move is always `'w'` or `'b'`, and it flips on every applied move. -/
structure Engine.Lawful {σ : Type} (E : Engine σ) : Prop where
  move_legal : ∀ s m, (E.move s m).isSome ↔ m ∈ E.legalMoves s
  turn_wb : ∀ s, E.turn s = 'w' ∨ E.turn s = 'b'
  move_flips : ∀ s m s' c, E.move s m = some (s', c) →
    E.turn s' = (if E.turn s = 'w' then 'b' else 'w')

/-! ## `GameEngine` methods (`game-engine.ts`) -/

/-- The result object of `executeMove` in `game-engine.ts`. -/
structure MoveResult where
  success : Bool
  error : Option (List Char)
  captured : Option Char
deriving DecidableEq, Repr

/-- Method `getTurn` from `game-engine.ts`: `turn() === 'w' ? 'white' : 'black'`. -/
def getTurn {σ : Type} (E : Engine σ) (s : σ) : Color :=
  if E.turn s = 'w' then .white else .black

/-- Method `executeMove` from `game-engine.ts`: calls chess.js `move` inside a
`try`/`catch`; a falsy result yields `success: false, error: 'Invalid move'`
and a thrown error is caught and also yields `success: false` — in both
failure shapes the engine state is unchanged. -/
def executeMove {σ : Type} (E : Engine σ) (s : σ) (move : San) : σ × MoveResult :=
  match E.move s move with
  | some (s', captured) =>
      (s', { success := true, error := none, captured := captured })
  | none =>
      (s, { success := false, error := some "Invalid move".data, captured := none })

/-- Return type of `getWinner` in `game-engine.ts`: `Color | 'draw' | null`. -/
inductive Winner where
  | white
  | black
  | draw
deriving DecidableEq, Repr

/-- Method `getWinner` from `game-engine.ts`: `null` while the game is not over;
on checkmate the side to move is the loser; every other game-over state is a
draw. -/
def getWinner {σ : Type} (E : Engine σ) (s : σ) : Option Winner :=
  if !E.isGameOver s then none
  else if E.isCheckmate s then
    some (if E.turn s = 'w' then .black else .white)
  else
    some .draw

/-- The result string computed in `saveGame` (`game-persistence.ts`):
`'1/2-1/2'` by default, overridden to `'1-0'` for a white win and `'0-1'`
for a black win. -/
def resultString (winner : Winner) : List Char :=
  if winner = .white then "1-0".data
  else if winner = .black then "0-1".data
  else "1/2-1/2".data

/-! ## Move resolution and fallback (`game-loop.ts` lines 129-166) -/

/-- The random-fallback step of `game-loop.ts`:
`validMoves[Math.floor(Math.random() * validMoves.length)]` followed by
`game.executeMove(randomMove)`.  The random draw is modelled by the index
`r`; when the legal-move set is empty the JavaScript indexing yields
`undefined` (here `none`) and `executeMove(undefined)` fails with the state
unchanged.  Returns the resulting state and the move string that was
reported as played. -/
def fallbackApply {σ : Type} (E : Engine σ) (s : σ) (r : Nat) : σ × Option San :=
  let validMoves := E.legalMoves s
  match validMoves.get? r with
  | some randomMove => ((executeMove E s randomMove).1, some randomMove)
  | none => (s, none)

/-- The outcome of one move-resolution step. -/
structure Resolution (σ : Type) where
  state : σ
  applied : Option San
  usedFallback : Bool
deriving Repr

/-- The move-resolution step of an agent turn (`game-loop.ts` lines
129-153): extract the last SAN-shaped token from the response text; if
extraction fails, fall back to a random legal move; otherwise attempt the
extracted move and, if the engine rejects it, fall back to a random legal
move (the rejected attempt left the state unchanged). -/
def resolveAndApply {σ : Type} (E : Engine σ) (s : σ) (responseText : List Char)
    (r : Nat) : Resolution σ :=
  match extractMoveFromResponse responseText with
  | none =>
      let (s', mv) := fallbackApply E s r
      { state := s', applied := mv, usedFallback := true }
  | some move =>
      let res := executeMove E s move
      if res.2.success then
        { state := res.1, applied := some move, usedFallback := false }
      else
        let (s', mv) := fallbackApply E res.1 r
        { state := s', applied := mv, usedFallback := true }

/-- An opaque JavaScript exception. -/
def JsError := Unit

/-- What one agent turn reports (the observable effects of
`game-loop.ts` lines 100-166 beside the state change): the working memory
shown, the move reported as played, and which failure logs were written. -/
structure TurnReport where
  workingMemory : List Char
  applied : Option San
  usedFallback : Bool
  loggedMemoryFailure : Bool
  loggedAgentFailure : Bool
deriving Repr

/-- One agent turn of `humanVsAIGame`/`aiVsAIGame` (`game-loop.ts` lines
100-166 resp. 211-282), with the two external calls supplied as `Except`
values: `agentResult` is the strategist invocation (`agent.generate`) and
`memResult` the Memory Store read (`getWorkingMemory`).  The outer
`try`/`catch` turns a strategist failure into a random fallback move; the
inner `try`/`catch` turns a memory-read failure into the empty blob.  The
result type is `Except JsError _`: a `.error` would model an exception
propagating out of the turn, which the source's handlers make impossible. -/
def aiTurn {σ : Type} (E : Engine σ) (s : σ)
    (agentResult : Except JsError (List Char))
    (memResult : Except JsError (Option (List Char)))
    (r : Nat) : Except JsError (σ × TurnReport) :=
  match agentResult with
  | .error _ =>
      let (s', mv) := fallbackApply E s r
      .ok (s', { workingMemory := [], applied := mv, usedFallback := true,
                 loggedMemoryFailure := false, loggedAgentFailure := true })
  | .ok responseText =>
      let workingMemory : List Char :=
        match memResult with
        | .ok m => m.getD []
        | .error _ => []
      let memLogged : Bool :=
        match memResult with
        | .ok _ => false
        | .error _ => true
      let res := resolveAndApply E s responseText r
      .ok (res.state, { workingMemory := workingMemory, applied := res.applied,
                        usedFallback := res.usedFallback,
                        loggedMemoryFailure := memLogged,
                        loggedAgentFailure := false })

/-! ## The human move prompt (`game-loop.ts` lines 26-63) -/

/-- JavaScript `String.prototype.trim`, on ASCII-ish whitespace. -/
def trimChars (s : List Char) : List Char :=
  ((s.dropWhile Char.isWhitespace).reverse.dropWhile Char.isWhitespace).reverse

/-- JavaScript `String.prototype.toLowerCase` (ASCII range). -/
def toLowerChars (s : List Char) : List Char :=
  s.map Char.toLower

/-- How `promptForMove` can resolve: with a validated move, or by the human
typing `quit` (which exits the whole process). -/
inductive PromptOutcome where
  | move (m : San)
  | quit
deriving DecidableEq, Repr

/-- Function `promptForMove` from `game-loop.ts`, with the human's successive inputs
supplied as a list: trim the input; `quit` (case-insensitive) exits; `moves`
prints the legal moves and re-asks; a member of `validMoves` resolves the
promise; anything else prints an error and re-asks.  `none` means the inputs
ran out with the prompt still waiting (the promise never resolves). -/
def promptForMove (validMoves : List San) : List (List Char) → Option PromptOutcome
  | [] => none
  | input :: rest =>
      let move := trimChars input
      if toLowerChars move = "quit".data then
        some .quit
      else if toLowerChars move = "moves".data then
        promptForMove validMoves rest
      else if move ∈ validMoves then
        some (.move move)
      else
        promptForMove validMoves rest

/-! ## Position evaluation (`game-engine.ts` lines 4-10 and 118-259)

The board snapshot is chess.js `board()`: an 8×8 array, row index 0 being
rank 8, each square holding a piece (`type` a lowercase piece letter,
`color` `'w'` or `'b'`) or nothing. -/

/-- A piece on a chess.js board square: `type` is the lowercase piece letter,
`color` is `'w'` or `'b'`. -/
structure Piece where
  type : Char
  color : Char
deriving DecidableEq, Repr

/-- A chess.js `board()` snapshot: rows of optional pieces, row 0 = rank 8. -/
abbrev Board := List (List (Option Piece))

/-- Table `PIECE_VALUES` from `game-engine.ts`: pawn 1, knight 3, bishop 3, rook 5,
queen 9, king 0, in both letter cases (a missing key scores 0). -/
def PIECE_VALUES (c : Char) : Nat :=
  if c = 'p' ∨ c = 'P' then 1
  else if c = 'n' ∨ c = 'N' then 3
  else if c = 'b' ∨ c = 'B' then 3
  else if c = 'r' ∨ c = 'R' then 5
  else if c = 'q' ∨ c = 'Q' then 9
  else 0

/-- Constant `CENTER_SQUARES` from `game-engine.ts`. -/
def CENTER_SQUARES : List (List Char) :=
  ["d4".data, "d5".data, "e4".data, "e5".data]

/-- Constant `EXTENDED_CENTER` from `game-engine.ts`. -/
def EXTENDED_CENTER : List (List Char) :=
  ["c3".data, "c4".data, "c5".data, "c6".data, "d3".data, "d6".data,
   "e3".data, "e6".data, "f3".data, "f4".data, "f5".data, "f6".data]

/-- The square name built in `analyzePosition`:
`String.fromCharCode(97 + fileIndex) + (8 - rankIndex)`. -/
def squareName (fileIndex rankIndex : Nat) : List Char :=
  [Char.ofNat (97 + fileIndex), Char.ofNat (48 + (8 - rankIndex))]

/-- The result of `countPieces` in `game-engine.ts`. -/
structure PieceCount where
  totalPieces : Nat
  queens : Nat
deriving DecidableEq, Repr

/-- Method `countPieces` from `game-engine.ts`: walk the board counting occupied
squares and queens (of either color). -/
def countPieces (board : Board) : PieceCount :=
  board.foldl
    (fun acc row =>
      row.foldl
        (fun acc square =>
          match square with
          | some sq =>
              { totalPieces := acc.totalPieces + 1,
                queens := if sq.type = 'q' then acc.queens + 1 else acc.queens }
          | none => acc)
        acc)
    { totalPieces := 0, queens := 0 }

/-- The game phases of `detectGamePhase`. -/
inductive GamePhase where
  | opening
  | middlegame
  | endgame
deriving DecidableEq, Repr

/-- Method `detectGamePhase` from `game-engine.ts`, as a function of the full-move
number (`moveNumber()`) and the board. -/
def detectGamePhase (moveNumber : Nat) (board : Board) : GamePhase :=
  let analysis := countPieces board
  if moveNumber ≤ 10 then .opening
  else if analysis.totalPieces ≤ 12 ∨ (analysis.queens = 0 ∧ analysis.totalPieces ≤ 16) then
    .endgame
  else .middlegame

/-- A per-side pair of integer scores. -/
structure SideScores where
  white : Int
  black : Int
deriving DecidableEq, Repr

/-- Method `evaluateKingSafety` from `game-engine.ts`: +3 for a king on the back two
ranks from its own side's perspective, −5 to the side to move when in check.
`turn` is chess.js `turn()`. -/
def evaluateKingSafety (board : Board) (turn : Char) (isCheck : Bool) : SideScores :=
  let base := board.enum.foldl
    (fun acc (rankRow : Nat × List (Option Piece)) =>
      rankRow.2.foldl
        (fun (acc : SideScores) square =>
          match square with
          | some sq =>
              if sq.type = 'k' then
                let isWhite := sq.color = 'w'
                let kingRank := if isWhite then 7 - rankRow.1 else rankRow.1
                if kingRank ≤ 1 then
                  if isWhite then { acc with white := acc.white + 3 }
                  else { acc with black := acc.black + 3 }
                else acc
              else acc
          | none => acc)
        acc)
    { white := 0, black := 0 }
  if isCheck then
    if turn = 'w' then { base with white := base.white - 5 }
    else { base with black := base.black - 5 }
  else base

/-- A detected threat, as built by `detectThreats` (the source formats these
as display strings; we keep them structured). -/
inductive Threat where
  | kingInCheck (c : Color)
  | captures (available highValue : Nat)
deriving DecidableEq, Repr

/-- Method `detectThreats` from `game-engine.ts`, as a function of the side to move,
the check flag, and the list of captured-piece letters over the verbose legal
moves (`moves({verbose: true})` filtered to capturing moves). -/
def detectThreats (turn : Color) (isCheck : Bool) (capturedPieces : List Char) :
    List Threat :=
  let threats : List Threat := if isCheck then [.kingInCheck turn] else []
  let capturingMoves := capturedPieces
  let highValueCaptures := capturingMoves.filter (fun c => PIECE_VALUES c ≥ 3)
  if capturingMoves.length > 0 then
    if highValueCaptures.length > 0 then
      threats ++ [.captures capturingMoves.length highValueCaptures.length]
    else threats
  else threats

/-- The accumulator of the board walk in `analyzePosition`. -/
structure EvalAcc where
  whiteMaterial : Nat
  blackMaterial : Nat
  whiteCenterControl : Nat
  blackCenterControl : Nat
  whiteDevelopment : Nat
  blackDevelopment : Nat
deriving DecidableEq, Repr

/-- The result of `analyzePosition`. -/
structure PositionAnalysis where
  materialBalance : Int
  centerControlWhite : Nat
  centerControlBlack : Nat
  developmentWhite : Nat
  developmentBlack : Nat
  kingSafety : SideScores
  phase : GamePhase
  threats : List Threat
deriving DecidableEq, Repr

/-- Method `analyzePosition` from `game-engine.ts` (lines 118-177): one walk over
the board accumulating material, center control (weight 2 on the four center
squares, 1 on the extended center) and development (non-pawn, non-king pieces
off the back rank), then king safety, phase and threats. Besides the board,
the inputs the class method reads from the chess.js instance are passed
explicitly: full-move number, side to move, check flag, and the captured
letters of the verbose capturing moves. -/
def analyzePosition (board : Board) (moveNumber : Nat) (turn : Char)
    (isCheck : Bool) (capturedPieces : List Char) : PositionAnalysis :=
  let acc := board.enum.foldl
    (fun acc (rankRow : Nat × List (Option Piece)) =>
      rankRow.2.enum.foldl
        (fun (acc : EvalAcc) (fileSquare : Nat × Option Piece) =>
          match fileSquare.2 with
          | none => acc
          | some sq =>
              let piece := sq.type
              let isWhite := sq.color = 'w'
              let name := squareName fileSquare.1 rankRow.1
              let pieceValue :=
                PIECE_VALUES (if isWhite then piece.toUpper else piece.toLower)
              let acc :=
                if isWhite then { acc with whiteMaterial := acc.whiteMaterial + pieceValue }
                else { acc with blackMaterial := acc.blackMaterial + pieceValue }
              let acc :=
                if name ∈ CENTER_SQUARES then
                  if isWhite then
                    { acc with whiteCenterControl := acc.whiteCenterControl + 2 }
                  else { acc with blackCenterControl := acc.blackCenterControl + 2 }
                else if name ∈ EXTENDED_CENTER then
                  if isWhite then
                    { acc with whiteCenterControl := acc.whiteCenterControl + 1 }
                  else { acc with blackCenterControl := acc.blackCenterControl + 1 }
                else acc
              if piece ≠ 'p' ∧ piece ≠ 'k' then
                let isBackRank := if isWhite then rankRow.1 = 7 else rankRow.1 = 0
                if ¬isBackRank then
                  if isWhite then
                    { acc with whiteDevelopment := acc.whiteDevelopment + 1 }
                  else { acc with blackDevelopment := acc.blackDevelopment + 1 }
                else acc
              else acc)
        acc)
    { whiteMaterial := 0, blackMaterial := 0, whiteCenterControl := 0,
      blackCenterControl := 0, whiteDevelopment := 0, blackDevelopment := 0 }
  { materialBalance := (acc.whiteMaterial : Int) - (acc.blackMaterial : Int),
    centerControlWhite := acc.whiteCenterControl,
    centerControlBlack := acc.blackCenterControl,
    developmentWhite := acc.whiteDevelopment,
    developmentBlack := acc.blackDevelopment,
    kingSafety := evaluateKingSafety board turn isCheck,
    phase := detectGamePhase moveNumber board,
    threats := detectThreats (if turn = 'w' then .white else .black) isCheck capturedPieces }

/-! ### The standard starting position, as chess.js `board()` reports it -/

/-- Shorthand for an occupied square. -/
def pc (t c : Char) : Option Piece := some { type := t, color := c }

/-- An empty board rank. -/
def emptyRank : List (Option Piece) :=
  [none, none, none, none, none, none, none, none]

/-- A rank of eight pawns of color `c`. -/
def pawnRank (c : Char) : List (Option Piece) :=
  [pc 'p' c, pc 'p' c, pc 'p' c, pc 'p' c, pc 'p' c, pc 'p' c, pc 'p' c, pc 'p' c]

/-- A back rank (rook, knight, bishop, queen, king, bishop, knight, rook) of
color `c`. -/
def backRank (c : Char) : List (Option Piece) :=
  [pc 'r' c, pc 'n' c, pc 'b' c, pc 'q' c, pc 'k' c, pc 'b' c, pc 'n' c, pc 'r' c]

/-- The standard starting position: row 0 is rank 8 (black's back rank), as
chess.js `board()` lays it out. -/
def startBoard : Board :=
  [backRank 'b', pawnRank 'b', emptyRank, emptyRank,
   emptyRank, emptyRank, pawnRank 'w', backRank 'w']

/-! ### Spec-side definitions for the game-phase claim -/

/-- All squares of a board, flattened. -/
def boardSquares (board : Board) : List (Option Piece) :=
  board.flatten

/-- Stated from the spec's words: the total number of pieces on the board. -/
def specTotalPieces (board : Board) : Nat :=
  ((boardSquares board).filterMap id).length

/-- Stated from the spec's words: the number of queens remaining. -/
def specQueens (board : Board) : Nat :=
  (((boardSquares board).filterMap id).filter (fun p => p.type = 'q')).length

/-- Stated from the spec's words: `opening` if the move number is at most 10;
otherwise `endgame` if the total piece count is at most 12, or no queens
remain and the total is at most 16; otherwise `middlegame`. -/
def specGamePhase (moveNumber totalPieces queens : Nat) : GamePhase :=
  if moveNumber ≤ 10 then .opening
  else if totalPieces ≤ 12 ∨ (queens = 0 ∧ totalPieces ≤ 16) then .endgame
  else .middlegame

/-! ## Iterating the turn loop's move application -/

/-- Applying a list of move attempts in order through `executeMove`, as the
turn loop does; returns the final state and the number of successfully
applied moves. -/
def runMoves {σ : Type} (E : Engine σ) : σ → List San → σ × Nat
  | s, [] => (s, 0)
  | s, m :: ms =>
      let step := executeMove E s m
      let rest := runMoves E step.1 ms
      (rest.1, (if step.2.success then 1 else 0) + rest.2)

/-! ## Concrete engine instances used to witness the theorems -/

/-- A concrete SAN string. -/
def nf3 : San := "Nf3".data

/-- A miniature lawful rules engine over `Nat` states: exactly one legal move
(`Nf3`), applying it increments the state, and the side to move is the parity
of the state. -/
def toyE : Engine Nat where
  legalMoves := fun _ => [nf3]
  move := fun s m => if m = nf3 then some (s + 1, none) else none
  turn := fun s => if s % 2 = 0 then 'w' else 'b'
  isGameOver := fun _ => false
  isCheckmate := fun _ => false

/-- The miniature engine satisfies the Rules Engine Adapter contract. -/
theorem toyE_lawful : toyE.Lawful := by
  refine ⟨?_, ?_, ?_⟩
  · intro s m
    by_cases h : m = nf3 <;> simp [toyE, h]
  · intro s
    by_cases h : s % 2 = 0 <;> simp [toyE, h]
  · intro s m s' c hmv
    by_cases h : m = nf3
    · simp only [toyE, h, if_true, Option.some.injEq, Prod.mk.injEq] at hmv
      obtain ⟨hs', -⟩ := hmv
      subst hs'
      rcases Nat.mod_two_eq_zero_or_one s with h2 | h2
      · have h3 : (s + 1) % 2 = 1 := by omega
        simp [toyE, h2, h3]
      · have h3 : (s + 1) % 2 = 0 := by omega
        simp [toyE, h2, h3]
    · simp [toyE, h] at hmv

/-- A degenerate engine whose legal-move set is empty while the game is not
reported over: the Rules Engine Adapter contract violation the spec's fatal
case talks about. -/
def emptyE : Engine Nat where
  legalMoves := fun _ => []
  move := fun _ _ => none
  turn := fun _ => 'w'
  isGameOver := fun _ => false
  isCheckmate := fun _ => false

/-- An engine frozen in a checkmate position with white to move. -/
def mateE : Engine Nat where
  legalMoves := fun _ => []
  move := fun _ _ => none
  turn := fun _ => 'w'
  isGameOver := fun _ => true
  isCheckmate := fun _ => true

/-! ## Shared lemmas -/

/-- Extraction returns the last element of the match list. -/
theorem extract_eq_getLast (t : List Char) :
    extractMoveFromResponse t = (matchAll t).getLast? := by
  unfold extractMoveFromResponse
  rcases h : matchAll t with - | ⟨a, l⟩
  · simp
  · simp only [List.length_cons, Nat.add_one_sub_one]
    rw [if_pos (Nat.succ_pos _)]
    rw [List.getLast?_eq_getElem?, List.get?_eq_getElem?]
    simp

/-- A successful `executeMove` means the engine accepted the move, hence the
move was a member of the legal-move set. -/
theorem executeMove_success_mem {σ : Type} {E : Engine σ} (hE : E.Lawful)
    {s : σ} {m : San} (h : (executeMove E s m).2.success = true) :
    m ∈ E.legalMoves s := by
  rcases hmv : E.move s m with - | ⟨s', c⟩
  · unfold executeMove at h
    rw [hmv] at h
    simp at h
  · exact (hE.move_legal s m).mp (by rw [hmv]; rfl)

/-- A failed `executeMove` leaves the engine state unchanged. -/
theorem executeMove_fail_eq {σ : Type} (E : Engine σ) (s : σ) (m : San)
    (h : (executeMove E s m).2.success = false) : (executeMove E s m).1 = s := by
  unfold executeMove at h ⊢
  rcases hmv : E.move s m with - | ⟨s', c⟩
  · rfl
  · rw [hmv] at h
    simp at h

/-- A move in the legal set executes successfully. -/
theorem executeMove_mem_success {σ : Type} {E : Engine σ} (hE : E.Lawful)
    {s : σ} {m : San} (h : m ∈ E.legalMoves s) :
    (executeMove E s m).2.success = true := by
  have hsome : (E.move s m).isSome := (hE.move_legal s m).mpr h
  rcases hmv : E.move s m with - | ⟨s', c⟩
  · rw [hmv] at hsome; simp at hsome
  · unfold executeMove; rw [hmv]

/-- With a non-empty legal set and an in-range random index, the fallback
step picks and reports the indexed legal move. -/
theorem fallbackApply_eq {σ : Type} (E : Engine σ) (s : σ) (r : Nat)
    (hr : r < (E.legalMoves s).length) :
    fallbackApply E s r =
      ((executeMove E s ((E.legalMoves s).get ⟨r, hr⟩)).1,
        some ((E.legalMoves s).get ⟨r, hr⟩)) := by
  simp [fallbackApply, List.getElem?_eq_getElem hr]

/-! ## Claim theorems -/

/-- C1: for every lawful engine state with a non-empty legal-move set and
in-range random index, and arbitrary response text, the move-resolution step
of a turn applies a move that is a member of the legal-move set — it never
ends with no move (`applied` is always `some`), with no unbounded retrying
(at most one fallback attempt, and `resolveAndApply` is total). -/
theorem c1_resolution_always_legal {σ : Type} (E : Engine σ) (hE : E.Lawful)
    (s : σ) (text : List Char) (r : Nat) (hr : r < (E.legalMoves s).length) :
    ∃ m, (resolveAndApply E s text r).applied = some m ∧ m ∈ E.legalMoves s := by
  rcases hext : extractMoveFromResponse text with - | ⟨move⟩
  · simp only [resolveAndApply, hext, fallbackApply_eq E s r hr]
    exact ⟨(E.legalMoves s).get ⟨r, hr⟩, rfl, List.get_mem _ _ hr⟩
  · rcases hmv : E.move s move with - | ⟨s', c⟩
    · have hfail : executeMove E s move =
          (s, { success := false, error := some "Invalid move".data, captured := none }) := by
        unfold executeMove
        rw [hmv]
      simp only [resolveAndApply, hext, hfail, Bool.false_eq_true, if_false,
        fallbackApply_eq E s r hr]
      exact ⟨(E.legalMoves s).get ⟨r, hr⟩, rfl, List.get_mem _ _ hr⟩
    · have hsucc : executeMove E s move =
          (s', { success := true, error := none, captured := c }) := by
        unfold executeMove
        rw [hmv]
      have hmem : move ∈ E.legalMoves s :=
        (hE.move_legal s move).mp (by rw [hmv]; rfl)
      simp only [resolveAndApply, hext, hsucc, if_true]
      exact ⟨move, rfl, hmem⟩

/-- Witness for C1 on the miniature engine: legal set `[Nf3]` is non-empty,
the text holds no move-shaped token, and resolution still applies a legal
move. -/
theorem c1_witness :
    0 < (toyE.legalMoves 0).length ∧
    ∃ m, (resolveAndApply toyE 0 "no idea".data 0).applied = some m ∧
      m ∈ toyE.legalMoves 0 :=
  ⟨by decide, c1_resolution_always_legal toyE toyE_lawful 0 "no idea".data 0 (by decide)⟩

/-- C2: move extraction returns the last move-shaped token of the text (the
last regex match); consequently, whenever that last token is a member of the
legal-move set — regardless of earlier move-shaped but illegal tokens —
resolution applies exactly that token and no fallback occurs. -/
theorem c2_last_match_wins {σ : Type} (E : Engine σ) (hE : E.Lawful) (s : σ)
    (text : List Char) (r : Nat) (m : San)
    (hm : (matchAll text).getLast? = some m) (hmem : m ∈ E.legalMoves s) :
    extractMoveFromResponse text = some m ∧
    (resolveAndApply E s text r).applied = some m ∧
    (resolveAndApply E s text r).usedFallback = false := by
  have hext : extractMoveFromResponse text = some m := by
    rw [extract_eq_getLast, hm]
  refine ⟨hext, ?_⟩
  have hsome : (E.move s m).isSome := (hE.move_legal s m).mpr hmem
  rcases hmv : E.move s m with - | ⟨s', c⟩
  · rw [hmv] at hsome
    simp at hsome
  · have hsucc : executeMove E s m =
        (s', { success := true, error := none, captured := c }) := by
      unfold executeMove
      rw [hmv]
    simp [resolveAndApply, hext, hsucc]

/-- Witness for C2: in a text with two move-shaped tokens where only the last
(`Nf3`) is legal on the miniature engine, extraction and resolution both
return `Nf3`. -/
theorem c2_witness :
    (matchAll "maybe e4 but final answer Nf3".data).getLast? = some "Nf3".data ∧
    extractMoveFromResponse "maybe e4 but final answer Nf3".data = some "Nf3".data ∧
    (resolveAndApply toyE 0 "maybe e4 but final answer Nf3".data 0).applied =
      some "Nf3".data ∧
    "e4".data ∈ matchAll "maybe e4 but final answer Nf3".data ∧
    "e4".data ∉ toyE.legalMoves 0 := by
  have h := c2_last_match_wins toyE toyE_lawful 0 "maybe e4 but final answer Nf3".data 0
    "Nf3".data (by decide) (by decide)
  exact ⟨by decide, h.1, h.2.1, by decide, by decide⟩

/-- C7: a Memory Store read failure during an agent turn never aborts the
game: the turn completes (`.ok`), the working memory is the empty blob, the
failure is logged, and the state change and applied move are exactly those of
the same turn with no prior memory. -/
theorem c7_memory_failure_graceful {σ : Type} (E : Engine σ) (s : σ)
    (text : List Char) (e : JsError) (r : Nat) :
    ∃ s' mv fb,
      aiTurn E s (.ok text) (.error e) r =
        .ok (s', { workingMemory := [], applied := mv, usedFallback := fb,
                   loggedMemoryFailure := true, loggedAgentFailure := false }) ∧
      aiTurn E s (.ok text) (.ok none) r =
        .ok (s', { workingMemory := [], applied := mv, usedFallback := fb,
                   loggedMemoryFailure := false, loggedAgentFailure := false }) :=
  ⟨(resolveAndApply E s text r).state, (resolveAndApply E s text r).applied,
    (resolveAndApply E s text r).usedFallback, rfl, rfl⟩

/-- C9: a strategist invocation failure never crashes the session: the turn
completes (`.ok`), the failure is logged, the random legal move at the drawn
index is applied successfully, and the loop proceeds from the advanced
state. -/
theorem c9_strategist_failure_fallback {σ : Type} (E : Engine σ) (hE : E.Lawful)
    (s : σ) (mem : Except JsError (Option (List Char))) (e : JsError) (r : Nat)
    (hr : r < (E.legalMoves s).length) :
    ∃ m, m ∈ E.legalMoves s ∧
      aiTurn E s (.error e) mem r =
        .ok ((executeMove E s m).1,
             { workingMemory := [], applied := some m, usedFallback := true,
               loggedMemoryFailure := false, loggedAgentFailure := true }) ∧
      (executeMove E s m).2.success = true := by
  refine ⟨(E.legalMoves s).get ⟨r, hr⟩, List.get_mem _ _ hr, ?_, ?_⟩
  · simp only [aiTurn, fallbackApply_eq E s r hr]
  · exact executeMove_mem_success hE (List.get_mem _ _ hr)

/-- Witness for C9 on the miniature engine: a failed strategist call at state
`0` applies `Nf3` and advances the state. -/
theorem c9_witness :
    0 < (toyE.legalMoves 0).length ∧
    ∃ m, m ∈ toyE.legalMoves 0 ∧
      aiTurn toyE 0 (.error ()) (.ok none) 0 =
        .ok ((executeMove toyE 0 m).1,
             { workingMemory := [], applied := some m, usedFallback := true,
               loggedMemoryFailure := false, loggedAgentFailure := true }) ∧
      (executeMove toyE 0 m).2.success = true :=
  ⟨by decide, c9_strategist_failure_fallback toyE toyE_lawful 0 (.ok none) () 0 (by decide)⟩

/-- C6 evaluated at the failing input: on an engine state whose legal-move
set is empty while the game is not over (the contract violation the spec's
fatal case describes), the turn does NOT raise: indexing the empty array
yields `undefined` (`none`), its application fails, the failure is swallowed
and the turn completes normally with the state unchanged — a silent
fallback, where the claim requires a loud error. -/
theorem c6_empty_fallback_is_silent :
    fallbackApply emptyE 0 0 = (0, none) ∧
    aiTurn emptyE 0 (.ok "no usable token".data) (.ok none) 0 =
      .ok (0, { workingMemory := [], applied := none, usedFallback := true,
                loggedMemoryFailure := false, loggedAgentFailure := false }) ∧
    emptyE.legalMoves 0 = [] ∧ emptyE.isGameOver 0 = false :=
  ⟨rfl, rfl, rfl, rfl⟩

/-- Flipping a color twice is the identity. -/
theorem Color.flip_flip (c : Color) : c.flip.flip = c := by
  cases c <;> rfl

/-- Under the engine contract, an accepted move flips `getTurn`. -/
theorem getTurn_move_flip {σ : Type} {E : Engine σ} (hE : E.Lawful) {s s' : σ}
    {m : San} {c : Option Char} (hmv : E.move s m = some (s', c)) :
    getTurn E s' = (getTurn E s).flip := by
  have ht := hE.move_flips s m s' c hmv
  rcases hE.turn_wb s with hw | hb
  · rw [hw] at ht
    simp at ht
    simp [getTurn, ht, hw, Color.flip]
  · rw [hb] at ht
    simp at ht
    simp [getTurn, ht, hb, Color.flip]

/-- The side to move after a run of move attempts is determined by the parity
of the number of successfully applied moves. -/
theorem runMoves_turn {σ : Type} (E : Engine σ) (hE : E.Lawful) :
    ∀ (ms : List San) (s : σ),
      getTurn E (runMoves E s ms).1 =
        if (runMoves E s ms).2 % 2 = 0 then getTurn E s else (getTurn E s).flip
  | [], s => by simp [runMoves]
  | m :: ms, s => by
      rcases hmv : E.move s m with - | ⟨s', c⟩
      · have hfail : executeMove E s m =
            (s, { success := false, error := some "Invalid move".data, captured := none }) := by
          unfold executeMove
          rw [hmv]
        have ih := runMoves_turn E hE ms s
        simpa [runMoves, hfail] using ih
      · have hsucc : executeMove E s m =
            (s', { success := true, error := none, captured := c }) := by
          unfold executeMove
          rw [hmv]
        have ih := runMoves_turn E hE ms s'
        have hflip := getTurn_move_flip hE hmv
        simp only [runMoves, hsucc, if_true]
        rw [ih, hflip]
        rcases Nat.mod_two_eq_zero_or_one ((runMoves E s' ms).2) with h2 | h2
        · have h3 : (1 + (runMoves E s' ms).2) % 2 = 1 := by omega
          simp [h2, h3]
        · have h3 : (1 + (runMoves E s' ms).2) % 2 = 0 := by omega
          simp [h2, h3, Color.flip_flip]

/-- C3: starting from a state with white to move, after any sequence of move
attempts the side to move is white exactly when the number of successfully
applied moves is even (strict alternation, advancing only on success); and a
failed or rejected `executeMove` leaves the engine state — and hence the rest
of the game state — unchanged. -/
theorem c3_turn_alternation {σ : Type} (E : Engine σ) (hE : E.Lawful) (s₀ : σ)
    (h₀ : getTurn E s₀ = Color.white) (ms : List San) :
    (getTurn E (runMoves E s₀ ms).1 =
       if (runMoves E s₀ ms).2 % 2 = 0 then Color.white else Color.black) ∧
    (∀ s m, (executeMove E s m).2.success = false → (executeMove E s m).1 = s) := by
  constructor
  · have h := runMoves_turn E hE ms s₀
    rw [h₀] at h
    simpa [Color.flip] using h
  · intro s m hf
    exact executeMove_fail_eq E s m hf

/-- A concrete run for the C3 witness: two successful applications of `Nf3`
around one rejected attempt. -/
def wms : List San := [nf3, "zz".data, nf3]

/-- Witness for C3 on the miniature engine: after the run `wms` (two
successes, one rejection) the side to move is white again. -/
theorem c3_witness : getTurn toyE (runMoves toyE 0 wms).1 = Color.white := by
  have h := (c3_turn_alternation toyE toyE_lawful 0 rfl wms).1
  have e : (runMoves toyE 0 wms).2 % 2 = 0 := by decide
  rw [e] at h
  simpa using h

/-- The row-level accumulation of `countPieces` adds the number of occupied
squares and the number of queens in the row. -/
theorem countPieces_row (row : List (Option Piece)) :
    ∀ acc : PieceCount,
      row.foldl
        (fun acc square =>
          match square with
          | some sq =>
              { totalPieces := acc.totalPieces + 1,
                queens := if sq.type = 'q' then acc.queens + 1 else acc.queens }
          | none => acc) acc =
      { totalPieces := acc.totalPieces + (row.filterMap id).length,
        queens := acc.queens +
          ((row.filterMap id).filter (fun p => p.type = 'q')).length } := by
  induction row with
  | nil => intro acc; simp
  | cons sq row ih =>
      intro acc
      rcases sq with - | p
      · simpa using ih acc
      · simp only [List.foldl_cons]
        rw [ih]
        by_cases hq : p.type = 'q' <;>
          simp [List.filterMap_cons, List.filter_cons, hq, PieceCount.mk.injEq] <;>
          omega

/-- The method `countPieces` computes the spec's piece counts: total occupied squares
and remaining queens. -/
theorem countPieces_eq (board : Board) :
    countPieces board =
      { totalPieces := specTotalPieces board, queens := specQueens board } := by
  unfold countPieces specTotalPieces specQueens boardSquares
  have go : ∀ (rows : List (List (Option Piece))) (acc : PieceCount),
      rows.foldl
        (fun acc row =>
          row.foldl
            (fun acc square =>
              match square with
              | some sq =>
                  { totalPieces := acc.totalPieces + 1,
                    queens := if sq.type = 'q' then acc.queens + 1 else acc.queens }
              | none => acc) acc) acc =
      { totalPieces := acc.totalPieces + ((rows.flatten.filterMap id).length),
        queens := acc.queens +
          ((rows.flatten.filterMap id).filter (fun p => p.type = 'q')).length } := by
    intro rows
    induction rows with
    | nil => intro acc; simp
    | cons row rows ih =>
        intro acc
        simp only [List.foldl_cons]
        rw [countPieces_row row acc, ih]
        simp [List.flatten_cons, List.filterMap_append, List.filter_append,
          PieceCount.mk.injEq]
        omega
  simpa using go board { totalPieces := 0, queens := 0 }

/-- C4: for every board and move number, `detectGamePhase` returns exactly
the phase the spec's formula prescribes — `opening` when the move number is
at most 10, else `endgame` when at most 12 pieces remain or no queens remain
with at most 16 pieces, else `middlegame`. -/
theorem c4_phase_formula (moveNumber : Nat) (board : Board) :
    detectGamePhase moveNumber board =
      specGamePhase moveNumber (specTotalPieces board) (specQueens board) := by
  unfold detectGamePhase specGamePhase
  rw [countPieces_eq board]

/-- C5: on the standard starting position (full-move number 1, white to
move, not in check, no capturing moves available), the Position Evaluator
returns material balance 0, center control 0 for both sides, development 0
for both sides, and phase `opening`. -/
theorem c5_start_position_eval :
    (analyzePosition startBoard 1 'w' false []).materialBalance = 0 ∧
    (analyzePosition startBoard 1 'w' false []).centerControlWhite = 0 ∧
    (analyzePosition startBoard 1 'w' false []).centerControlBlack = 0 ∧
    (analyzePosition startBoard 1 'w' false []).developmentWhite = 0 ∧
    (analyzePosition startBoard 1 'w' false []).developmentBlack = 0 ∧
    (analyzePosition startBoard 1 'w' false []).phase = GamePhase.opening := by
  refine ⟨?_, ?_, ?_, ?_, ?_, ?_⟩ <;> rfl

/-- C8: the human move prompt resolves with a move only if that move is a
member of the legal-move set — an input that is not `quit` and not a legal
move never resolves the prompt, it re-prompts on the remaining inputs (the
random fallback does not exist on this path, and the only other resolution
is an explicit quit). -/
theorem c8_prompt_only_legal_or_quit (validMoves : List San)
    (inputs : List (List Char)) :
    (∀ m, promptForMove validMoves inputs = some (PromptOutcome.move m) →
      m ∈ validMoves) ∧
    (∀ input rest, toLowerChars (trimChars input) ≠ "quit".data →
      trimChars input ∉ validMoves →
      promptForMove validMoves (input :: rest) = promptForMove validMoves rest) := by
  constructor
  · induction inputs with
    | nil =>
        intro m h
        simp [promptForMove] at h
    | cons input rest ih =>
        intro m h
        simp only [promptForMove] at h
        by_cases hq : toLowerChars (trimChars input) = "quit".data
        · rw [if_pos hq] at h
          simp at h
        · rw [if_neg hq] at h
          by_cases hms : toLowerChars (trimChars input) = "moves".data
          · rw [if_pos hms] at h
            exact ih m h
          · rw [if_neg hms] at h
            by_cases hmem : trimChars input ∈ validMoves
            · rw [if_pos hmem] at h
              cases h
              exact hmem
            · rw [if_neg hmem] at h
              exact ih m h
  · intro input rest hq hmem
    simp only [promptForMove]
    rw [if_neg hq]
    by_cases hms : toLowerChars (trimChars input) = "moves".data
    · rw [if_pos hms]
    · rw [if_neg hms, if_neg hmem]

/-- Witness for C8: with legal set `[e4]` and inputs `zz` (invalid, causes a
re-prompt) then `e4`, the prompt resolves with `e4`, which the theorem places
in the legal set. -/
theorem c8_witness :
    promptForMove ["e4".data] ["zz".data, "e4".data] =
      some (PromptOutcome.move "e4".data) ∧
    "e4".data ∈ ["e4".data] :=
  ⟨rfl, (c8_prompt_only_legal_or_quit ["e4".data] ["zz".data, "e4".data]).1
    "e4".data rfl⟩

/-- C10: `getWinner` is `none` exactly when the game is not over; a game over
by checkmate awards the win to the color opposite the side to move; any other
game-over state is a draw; and the persisted result string is `1-0` iff the
winner is white, `0-1` iff black, `1/2-1/2` iff draw. -/
theorem c10_winner_result {σ : Type} (E : Engine σ) (s : σ)
    (hwb : E.turn s = 'w' ∨ E.turn s = 'b') :
    (getWinner E s = none ↔ E.isGameOver s = false) ∧
    (E.isGameOver s = true → E.isCheckmate s = true →
      getWinner E s =
        some (if getTurn E s = Color.white then Winner.black else Winner.white)) ∧
    (E.isGameOver s = true → E.isCheckmate s = false →
      getWinner E s = some Winner.draw) ∧
    (∀ w : Winner,
      (resultString w = "1-0".data ↔ w = Winner.white) ∧
      (resultString w = "0-1".data ↔ w = Winner.black) ∧
      (resultString w = "1/2-1/2".data ↔ w = Winner.draw)) := by
  refine ⟨?_, ?_, ?_, ?_⟩
  · unfold getWinner
    rcases hgo : E.isGameOver s
    · simp
    · cases E.isCheckmate s <;> simp
  · intro hgo hcm
    unfold getWinner getTurn
    rw [hgo, hcm]
    rcases hwb with hw | hb
    · simp [hw]
    · simp [hb]
  · intro hgo hcm
    unfold getWinner
    rw [hgo, hcm]
    simp
  · intro w
    cases w <;> refine ⟨?_, ?_, ?_⟩ <;> simp [resultString]

/-- Witness for C10 on the checkmated engine (white to move, game over by
checkmate): black wins, and a white win would be persisted as `1-0`. -/
theorem c10_witness :
    getWinner mateE 0 = some Winner.black ∧
    resultString Winner.white = "1-0".data := by
  have h := c10_winner_result mateE 0 (Or.inl rfl)
  constructor
  · have hb := h.2.1 rfl rfl
    simpa [getTurn, mateE] using hb
  · exact ((h.2.2.2 Winner.white).1).mpr rfl

end AIChess
